import Mathlib

/-!
Verification of `scripts/update_calendar.py` (us-macro-calendar).

The program is a one-shot batch pipeline: it fetches two ICS feeds (BLS, BEA)
and one HTML page (FOMC), extracts/filters VEVENT blocks, normalizes
US-Eastern timestamps of BLS events to UTC, scrapes FOMC meeting dates,
and writes one merged VCALENDAR document.

Shallow embedding conventions:
  * a text line is a `List Char` (the Python code works on `str.splitlines()`
    output, so lines never contain a newline);
  * `datetime` values are the `DateTime` structure below; all datetimes the
    program compares are UTC-tagged, so Python's chronological comparison
    coincides with lexicographic comparison of the six fields, embedded here
    through the order-preserving key `DateTime.key`;
  * `datetime.strptime` with the three fixed formats used by the program is
    modelled as fixed-width digit parsing with the same range validation the
    `datetime` constructor performs (CPython's `strptime` additionally accepts
    some non-zero-padded widths; no feed value and no claim depends on that);
  * `pytz.timezone("US/Eastern").localize(naive, is_dst=False)` followed by
    `astimezone(timezone.utc)` is modelled by `easternToUtc`: the US DST rule
    (second Sunday of March 02:00 to first Sunday of November 02:00, with
    `is_dst=False` resolving the nonexistent and the ambiguous hour to EST)
    applied to the wall-clock date, and an `OverflowError` (result beyond
    year 9999, `datetime.max`) modelled as failure. This rule coincides with
    the zone's transition table exactly for wall-clock years 2007-2037, so
    every theorem about the value of a conversion restricts its scope to that
    window; outside it the real table differs (historical April/October
    rules before 2007, war time 1942-45, and a table horizon after 2037) and
    no theorem here asserts the converted value. The overflow case, which is
    independent of the offset (both 4 and 5 hours push 99991231T2200 past
    `datetime.max`, and both the table and this rule give EST at the horizon),
    is asserted without the window restriction;
  * `requests.get(...)`/`raise_for_status` is an `Except String` input to
    `mainResult`; the clock samples (`NOW` at module import, `datetime.now`
    inside `scrape_fomc_events`) are explicit parameters.
-/

/-- A text line, as produced by `str.splitlines()`. -/
abbrev Line := List Char

/-- Shorthand to write concrete lines. -/
def str (s : String) : Line := s.toList

/-- Embedding of a Python `datetime` (microseconds are never used by the
program, so they are omitted). All datetimes compared by the program carry
`tzinfo=timezone.utc`. -/
structure DateTime where
  y : Nat
  m : Nat
  d : Nat
  hh : Nat
  mi : Nat
  ss : Nat
deriving DecidableEq, Repr

/-- Order-preserving key: for field values in their calendar ranges this is
exactly Python's chronological comparison of UTC datetimes (lexicographic on
the six fields). -/
def DateTime.key (t : DateTime) : Nat :=
  ((((t.y * 13 + t.m) * 32 + t.d) * 24 + t.hh) * 60 + t.mi) * 60 + t.ss

/-- `a <= b` on datetimes (Python `>=`/`<` comparisons are embedded via this). -/
def dtLe (a b : DateTime) : Bool := a.key ≤ b.key

/-- `a < b` on datetimes. -/
def dtLt (a b : DateTime) : Bool := a.key < b.key

/-- Gregorian leap year, as `datetime` uses it. -/
def isLeap (y : Nat) : Bool := (y % 4 == 0 && y % 100 != 0) || y % 400 == 0

/-- Days in a month, as validated by the `datetime` constructor. -/
def daysInMonth (y m : Nat) : Nat :=
  if m = 2 then (if isLeap y then 29 else 28)
  else if m = 4 ∨ m = 6 ∨ m = 9 ∨ m = 11 then 30
  else 31

/-- A structurally valid `datetime` value: exactly the field ranges the
`datetime` constructor accepts (`MINYEAR = 1`, `MAXYEAR = 9999`). -/
def ValidDT (t : DateTime) : Prop :=
  1 ≤ t.y ∧ t.y ≤ 9999 ∧ 1 ≤ t.m ∧ t.m ≤ 12 ∧ 1 ≤ t.d ∧
    t.d ≤ daysInMonth t.y t.m ∧ t.hh ≤ 23 ∧ t.mi ≤ 59 ∧ t.ss ≤ 59

instance (t : DateTime) : Decidable (ValidDT t) := by
  unfold ValidDT; infer_instance

/-- Day number of the civil date in a proleptic Gregorian count (the standard
"days from civil" formula with the year shifted so the leap day ends a year).
Used only to measure exact distances between instants. -/
def civilDays (y m d : Nat) : Nat :=
  let y' := if m ≤ 2 then y - 1 else y
  let doy := (153 * (if m ≤ 2 then m + 9 else m - 3) + 2) / 5
  365 * y' + y' / 4 - y' / 100 + y' / 400 + doy + (d - 1)

/-- Seconds-since-origin measure of an instant; two valid datetimes are the
same number of seconds apart as their `civilSecs` difference. -/
def civilSecs (t : DateTime) : Nat :=
  civilDays t.y t.m t.d * 86400 + t.hh * 3600 + t.mi * 60 + t.ss

/-- The civil date following `(y, m, d)`. -/
def nextDay (y m d : Nat) : Nat × Nat × Nat :=
  if d < daysInMonth y m then (y, m, d + 1)
  else if m < 12 then (y, m + 1, 1)
  else (y + 1, 1, 1)

/-- Add `h < 24` hours to a datetime (calendar arithmetic with at most one
day rollover), as `datetime` timedelta arithmetic does. -/
def addHours (t : DateTime) (h : Nat) : DateTime :=
  if t.hh + h < 24 then { t with hh := t.hh + h }
  else
    let nd := nextDay t.y t.m t.d
    { y := nd.1, m := nd.2.1, d := nd.2.2, hh := t.hh + h - 24, mi := t.mi, ss := t.ss }

/-- Digit character for `n % 10`. -/
def digitChar (n : Nat) : Char := Char.ofNat (48 + n % 10)

/-- Two-digit zero-padded decimal, as `strftime` `%m`/`%d`/`%H`/`%M`/`%S`
print in-range values. -/
def pad2 (n : Nat) : Line := [digitChar (n / 10), digitChar n]

/-- Four-digit zero-padded decimal, as `strftime` `%Y` prints in-range years. -/
def pad4 (n : Nat) : Line := [digitChar (n / 1000), digitChar (n / 100), digitChar (n / 10), digitChar n]

/-- `strftime("%Y%m%d")`. -/
def dateKey (y m d : Nat) : Line := pad4 y ++ pad2 m ++ pad2 d

/-- `strftime("%Y%m%dT%H%M%SZ")`. -/
def fmtTS (t : DateTime) : Line :=
  dateKey t.y t.m t.d ++ ['T'] ++ pad2 t.hh ++ pad2 t.mi ++ pad2 t.ss ++ ['Z']

/-- Value of a decimal digit character, if it is one. -/
def digitVal (c : Char) : Option Nat :=
  if '0' ≤ c ∧ c ≤ '9' then some (c.toNat - 48) else none

/-- Read exactly two digit characters. -/
def read2 (a b : Char) : Option Nat := do
  let x ← digitVal a; let y ← digitVal b; pure (10 * x + y)

/-- Read exactly four digit characters. -/
def read4 (a b c d : Char) : Option Nat := do
  let x ← read2 a b; let y ← read2 c d; pure (100 * x + y)

/-- `datetime.strptime(v, "%Y%m%dT%H%M%S")` (fixed-width model): naive
wall-clock instant, validated like the `datetime` constructor. -/
def parseNaive (v : Line) : Option DateTime :=
  match v with
  | [y1, y2, y3, y4, m1, m2, d1, d2, 'T', h1, h2, n1, n2, s1, s2] => do
    let y ← read4 y1 y2 y3 y4
    let m ← read2 m1 m2
    let d ← read2 d1 d2
    let hh ← read2 h1 h2
    let mi ← read2 n1 n2
    let ss ← read2 s1 s2
    let t : DateTime := ⟨y, m, d, hh, mi, ss⟩
    if ValidDT t then pure t else none
  | _ => none

/-- `datetime.strptime(v, "%Y%m%dT%H%M%SZ")`: explicit-UTC instant. -/
def parseZulu (v : Line) : Option DateTime :=
  match v with
  | [y1, y2, y3, y4, m1, m2, d1, d2, 'T', h1, h2, n1, n2, s1, s2, 'Z'] =>
    parseNaive [y1, y2, y3, y4, m1, m2, d1, d2, 'T', h1, h2, n1, n2, s1, s2]
  | _ => none

/-- `datetime.strptime(v, "%Y%m%d")`: bare civil date, midnight. -/
def parseDateOnly (v : Line) : Option DateTime :=
  match v with
  | [y1, y2, y3, y4, m1, m2, d1, d2] => do
    let y ← read4 y1 y2 y3 y4
    let m ← read2 m1 m2
    let d ← read2 d1 d2
    let t : DateTime := ⟨y, m, d, 0, 0, 0⟩
    if ValidDT t then pure t else none
  | _ => none

/-- Python whitespace characters stripped by `str.strip()` (ASCII subset;
feed values contain no other whitespace). -/
def isWS (c : Char) : Bool :=
  c = ' ' ∨ c = '\t' ∨ c = '\n' ∨ c = '\r' ∨ c = '\x0b' ∨ c = '\x0c'

/-- `str.strip()`. -/
def stripWS (l : Line) : Line :=
  ((l.dropWhile isWS).reverse.dropWhile isWS).reverse

/-- The part of `l` after its first `':'` — `l.split(":", 1)[1]` — or `none`
when the line has no colon. -/
def afterColon : Line → Option Line
  | [] => none
  | c :: r => if c = ':' then some r else afterColon r

/-- Is `pat` a contiguous substring of `l`? — Python's `pat in line`. -/
def containsSub (pat : Line) : Line → Bool
  | [] => pat.isPrefixOf ([] : Line)
  | c :: r => pat.isPrefixOf (c :: r) || containsSub pat r

/-- `MAJOR_KEYWORDS` — the five topical keyword substrings. -/
def MAJOR_KEYWORDS : List Line :=
  [str "Consumer Price Index",
   str "Employment Situation",
   str "Producer Price Index",
   str "Gross Domestic Product",
   str "Personal Income and Outlays"]

/-- `any(k in line for k in MAJOR_KEYWORDS)`. -/
def hasKeyword (l : Line) : Bool := MAJOR_KEYWORDS.any (fun k => containsSub k l)

/-- `parse_dtstart`: split the line at its first colon, strip the value, and
try the one `strptime` shape selected by the value's form (`'T' in value`,
`value.endswith("Z")`). Total by construction; any failure is `none`, the
Python `except Exception: return None`. -/
def parse_dtstart (l : Line) : Option DateTime :=
  match afterColon l with
  | none => none
  | some rest =>
    let v := stripWS rest
    if v.contains 'T' then
      if v.getLast? = some 'Z' then parseZulu v else parseNaive v
    else parseDateOnly v

/-- The annotation line `f"  (Source: {source_tag})"`. -/
def descAnnot (tag : Line) : Line := str "  (Source: " ++ tag ++ [')']

/-- The comment line `f"COMMENT:Source={source_tag}"`. -/
def commentAnnot (tag : Line) : Line := str "COMMENT:Source=" ++ tag

/-- Line marker `"DESCRIPTION:"`. -/
def descMark : Line := str "DESCRIPTION:"

/-- One loop iteration of `annotate_source`: append the line to `out`, and
after the first `DESCRIPTION:` line also append the annotation, recording
`inserted`. -/
def annotStep (tag : Line) (acc : List Line × Bool) (l : Line) : List Line × Bool :=
  if !acc.2 && descMark.isPrefixOf l then (acc.1 ++ [l, descAnnot tag], true)
  else (acc.1 ++ [l], acc.2)

/-- `annotate_source`: copy lines, appending the annotation right after the
first line that starts with `DESCRIPTION:`; if none was found, insert the
comment line at index 1 (`out.insert(1, ...)`). -/
def annotate_source (eventLines : List Line) (tag : Line) : List Line :=
  let folded := eventLines.foldl (annotStep tag) ([], false)
  if folded.2 then folded.1
  else folded.1.take 1 ++ [commentAnnot tag] ++ folded.1.drop 1

/-- Line marker `"BEGIN:VEVENT"`. -/
def beginMark : Line := str "BEGIN:VEVENT"

/-- Line marker `"END:VEVENT"`. -/
def endMark : Line := str "END:VEVENT"

/-- Line marker `"DTSTART"`. -/
def dtstartMark : Line := str "DTSTART"

/-- Scan state of `filter_events`: the accumulated result, the current block,
the `in_event` flag, the `include` flag, and the recorded parsed start. -/
structure FilterState where
  events : List (List Line)
  current : List Line
  inEvent : Bool
  incl : Bool
  eventDt : Option DateTime

/-- One loop iteration of `filter_events`. `now` is the module-level `NOW`. -/
def filterStep (now : DateTime) (tag : Line) (s : FilterState) (l : Line) : FilterState :=
  if beginMark.isPrefixOf l then
    { s with inEvent := true, current := [l], incl := false, eventDt := none }
  else if endMark.isPrefixOf l then
    let cur := s.current ++ [l]
    let keep := s.incl && (match s.eventDt with
      | none => true
      | some dt => dtLe now dt)
    { events := if keep then s.events ++ [annotate_source cur tag] else s.events,
      current := [], inEvent := false, incl := s.incl, eventDt := none }
  else if s.inEvent then
    { s with
      eventDt := if dtstartMark.isPrefixOf l then
          (match parse_dtstart l with | some dt => some dt | none => s.eventDt)
        else s.eventDt,
      incl := s.incl || hasKeyword l,
      current := s.current ++ [l] }
  else s

/-- `filter_events`: pull VEVENT blocks out of the line stream, keeping a
block when a keyword was seen and the recorded start (if any) is `>= NOW`. -/
def filter_events (lines : List Line) (tag : Line) (now : DateTime) : List (List Line) :=
  (lines.foldl (filterStep now tag) ⟨[], [], false, false, none⟩).events

/-- The weekday of a civil date, `0 = Sunday`. -/
def dayOfWeek (y m d : Nat) : Nat := (civilDays y m d + 3) % 7

/-- Day-of-month of the first Sunday on or after `(y, m, 1)`. -/
def firstSunday (y m : Nat) : Nat := 1 + (7 - dayOfWeek y m 1) % 7

/-- US-Eastern daylight-saving predicate on a naive local wall clock, as
`pytz.timezone("US/Eastern").localize(naive)` (with its default
`is_dst=False`) resolves it for wall-clock years 2007-2037: daylight time
from the second Sunday of March (the nonexistent hour 02:00-03:00 resolves
to EST, so DST starts at 03:00 local) to the first Sunday of November (the
ambiguous hour 01:00-02:00 resolves to EST, so DST ends at 01:00 local).
Within 2007-2037 this is exactly the zone's transition table; outside that
window the table applies different offsets (April/October rules before
2007, year-round war time 1942-45, EST for every date past its 2037
horizon), so theorems about a conversion's value carry `2007 <= y <= 2037`
hypotheses and nothing is asserted about out-of-window values beyond the
offset-independent overflow fallback at year 9999. -/
def isEasternDST (t : DateTime) : Bool :=
  let dstStart : DateTime := ⟨t.y, 3, firstSunday t.y 3 + 7, 3, 0, 0⟩
  let dstEnd : DateTime := ⟨t.y, 11, firstSunday t.y 11, 1, 0, 0⟩
  dtLe dstStart t && dtLt t dstEnd

/-- Hours US-Eastern is behind UTC at a naive local wall clock. -/
def easternOffset (t : DateTime) : Nat := if isEasternDST t then 4 else 5

/-- `EASTERN.localize(naive).astimezone(timezone.utc)`: add the Eastern
offset for that wall clock; the result exceeding `datetime.max`
(year 9999) is the `OverflowError` case, modelled as `none`. -/
def easternToUtc (t : DateTime) : Option DateTime :=
  let u := addHours t (easternOffset t)
  if u.y ≤ 9999 then some u else none

/-- Field qualifier `"DTSTART;TZID=US-Eastern:"`. -/
def dtstartQual : Line := str "DTSTART;TZID=US-Eastern:"

/-- Field qualifier `"DTEND;TZID=US-Eastern:"`. -/
def dtendQual : Line := str "DTEND;TZID=US-Eastern:"

/-- The rewritten field produced from a qualified value `v`, when the naive
parse and the UTC conversion both succeed: `head ++ strftime(...) ++ "Z"`.
The qualifier contains the line's first colon as its final character, so
`line.split(":", 1)[1]` is exactly the part after the qualifier. -/
def rewriteQualified (head : Line) (v : Line) : Option Line := do
  let naive ← parseNaive (stripWS v)
  let utc ← easternToUtc naive
  pure (head ++ fmtTS utc)

/-- One line of `normalize_bls_events_to_utc`: rewrite a `TZID=US-Eastern`
qualified DTSTART/DTEND to explicit UTC; on any parse/conversion failure fall
back to the original line; leave every other line untouched. -/
def normalizeLine (l : Line) : Line :=
  if dtstartQual.isPrefixOf l then
    match rewriteQualified (str "DTSTART:") (l.drop dtstartQual.length) with
    | some nl => nl
    | none => l
  else if dtendQual.isPrefixOf l then
    match rewriteQualified (str "DTEND:") (l.drop dtendQual.length) with
    | some nl => nl
    | none => l
  else l

/-- `normalize_bls_events_to_utc`. -/
def normalize_bls_events_to_utc (events : List (List Line)) : List (List Line) :=
  events.map (fun ev => ev.map normalizeLine)

/-- The month-name alternatives of the scraper's pattern, in the regex's
alternation order, with `MONTH_MAP` values. -/
def monthTable : List (Line × Nat) :=
  [(str "January", 1), (str "February", 2), (str "March", 3), (str "April", 4),
   (str "May", 5), (str "June", 6), (str "July", 7), (str "August", 8),
   (str "September", 9), (str "October", 10), (str "November", 11),
   (str "December", 12)]

/-- Try the month-name alternatives in order at the head of `cs`; on success
return the `MONTH_MAP` value and the rest of the text. No month name is a
prefix of another, so at most one alternative can match, as in the regex. -/
def matchMonth : List (Line × Nat) → Line → Option (Nat × Line)
  | [], _ => none
  | (nm, n) :: rest, cs =>
    if nm.isPrefixOf cs then some (n, cs.drop nm.length) else matchMonth rest cs

/-- `[^\d]{0,20}` followed by a required digit: consume up to `budget`
non-digit characters, stopping at the first digit; fail if no digit is
reachable. The consumed part is determined (the class cannot eat a digit),
as in the regex. -/
def skipGap : Nat → Line → Option Line
  | _, [] => none
  | budget, c :: r =>
    if c.isDigit then some (c :: r)
    else match budget with
      | 0 => none
      | b + 1 => skipGap b r

/-- `(\d{1,2})-`: greedily two digits then the hyphen, else one digit then
the hyphen, as the regex backtracks. Returns the number and the rest. -/
def matchDay1 : Line → Option (Nat × Line)
  | a :: b :: r =>
    match digitVal a with
    | none => none
    | some x =>
      match digitVal b with
      | some y => match r with
        | '-' :: r' => some (10 * x + y, r')
        | _ => none
      | none => if b = '-' then some (x, r) else none
  | _ => none

/-- `(\d{1,2})\*?`: greedily one or two digits, then an optional `*`. -/
def matchDay2 : Line → Option (Nat × Line)
  | a :: r =>
    match digitVal a with
    | none => none
    | some x =>
      let (n, r') := match r with
        | b :: t => match digitVal b with
          | some y => (10 * x + y, t)
          | none => (x, b :: t)
        | [] => (x, ([] : Line))
      match r' with
      | '*' :: t => some (n, t)
      | _ => some (n, r')
  | [] => none

/-- One attempt of the compiled `month_re` at the start of `cs`: month name,
gap, `day1-day2`, optional star. Returns `(month, day1, day2)` and the text
after the match. -/
def tryMatch (cs : Line) : Option ((Nat × Nat × Nat) × Line) := do
  let (mon, r1) ← matchMonth monthTable cs
  let r2 ← skipGap 20 r1
  let (d1, r3) ← matchDay1 r2
  let (d2, r4) ← matchDay2 r3
  pure ((mon, d1, d2), r4)

/-- `month_re.finditer(section)`: scan left to right, resuming after each
match (matches never overlap); `fuel` bounds the scan and is instantiated
with the text length, which suffices since every step consumes at least one
character. -/
def findMatches : Nat → Line → List (Nat × Nat × Nat)
  | 0, _ => []
  | _, [] => []
  | fuel + 1, c :: r =>
    match tryMatch (c :: r) with
    | some (m, rest) => m :: findMatches fuel rest
    | none => findMatches fuel r

/-- Index of the first occurrence of `pat` in `text` — Python `str.find`,
with `none` for `-1`. -/
def findSub (pat : Line) : Line → Option Nat
  | [] => if pat = [] then some 0 else none
  | c :: r =>
    if pat.isPrefixOf (c :: r) then some 0
    else (findSub pat r).map (· + 1)

/-- The years the scraper scans. -/
def years_to_scan : List Nat := [2025, 2026, 2027]

/-- `f"{year} FOMC Meetings"`. -/
def headerOf (y : Nat) : Line := (Nat.repr y).toList ++ str " FOMC Meetings"

/-- Locate a year's section: from the first occurrence of its header to the
smallest later-year header occurring after it (`text.find` is global, and
only positions greater than the section start shrink the bound), or the end
of the text. -/
def sectionFor (text : Line) (y : Nat) : Option Line :=
  match findSub (headerOf y) text with
  | none => none
  | some idx =>
    let endIdx := years_to_scan.foldl
      (fun e oy =>
        if oy ≤ y then e
        else match findSub (headerOf oy) text with
          | none => e
          | some tmp => if tmp > idx then min e tmp else e)
      text.length
    some ((text.drop idx).take (endIdx - idx))

/-- The synthesized all-day event block for one deduplicated meeting date.
`key` is the `YYYYMMDD` date key; `nowSample` is the `datetime.now` sample
taken at the start of `scrape_fomc_events` (the `now_str` local). -/
def synthEvent (year : Nat) (key : Line) (nowSample : DateTime) : List Line :=
  [str "BEGIN:VEVENT",
   str "UID:FOMC-" ++ key ++ str "@us-macro",
   str "DTSTAMP:" ++ fmtTS nowSample,
   str "DTSTART;VALUE=DATE:" ++ key,
   str "SUMMARY:FOMC Meeting – Rate Decision",
   str "DESCRIPTION:Federal Open Market Committee meeting " ++
     str "(second day, policy statement expected). " ++
     str "(Source: Federal Reserve FOMC calendar, " ++ (Nat.repr year).toList ++ [')'],
   str "END:VEVENT"]

/-- Process one regex match: build `datetime(year, month, day2)` (skip on
`ValueError`), skip past dates (`dt < NOW`), deduplicate on the date key,
and append the synthesized block. State is `(events, seen_dates)`. -/
def processMatch (year : Nat) (now nowSample : DateTime)
    (st : List (List Line) × List Line) (m : Nat × Nat × Nat) :
    List (List Line) × List Line :=
  if 1 ≤ m.2.2 ∧ m.2.2 ≤ daysInMonth year m.1 then
    if dtLt ⟨year, m.1, m.2.2, 0, 0, 0⟩ now then st
    else if dateKey year m.1 m.2.2 ∈ st.2 then st
    else (st.1 ++ [synthEvent year (dateKey year m.1 m.2.2) nowSample],
      st.2 ++ [dateKey year m.1 m.2.2])
  else st

/-- Process one scanned year: locate its section and fold its pattern
matches; a missing year header is skipped silently. -/
def yearStep (text : Line) (now nowSample : DateTime)
    (st : List (List Line) × List Line) (y : Nat) : List (List Line) × List Line :=
  match sectionFor text y with
  | none => st
  | some sec => (findMatches sec.length sec).foldl (processMatch y now nowSample) st

/-- `scrape_fomc_events`, parameterized by the flattened page text (the
`BeautifulSoup(...).get_text("\n")` result; fetching and tag-stripping are
the I/O boundary), by the module-level `NOW` used for the recency filter,
and by the fresh `datetime.now(timezone.utc)` sample taken inside the
function for `now_str`. -/
def scrape_fomc_events (text : Line) (now nowSample : DateTime) : List (List Line) :=
  (years_to_scan.foldl (yearStep text now nowSample) ([], [])).1

/-- The fixed VCALENDAR container header written by `main`. -/
def calHeader : List Line :=
  [str "BEGIN:VCALENDAR",
   str "VERSION:2.0",
   str "PRODID:-//YourGitHubUser//US Macro Calendar//EN",
   str "CALSCALE:GREGORIAN",
   str "METHOD:PUBLISH",
   str "X-WR-CALNAME:US Macro Major Events"]

/-- The fixed VCALENDAR container footer. -/
def calFooter : List Line := [str "END:VCALENDAR"]

/-- `main`, as a function of its three fetch results (a `requests` failure or
non-success status is `Except.error`, the uncaught exception) and the two
clock samples. The returned `ok` value is the full sequence of lines written
to `us_macro.ics`; an `error` result means the run aborted before the output
file was opened. The fetch order is the program's: BLS, BEA, then the FOMC
page inside `scrape_fomc_events`. -/
def mainResult (bls bea : Except String (List Line)) (fomcText : Except String Line)
    (now nowSample : DateTime) : Except String (List Line) :=
  match bls with
  | .error e => .error e
  | .ok blsLines =>
    match bea with
    | .error e => .error e
    | .ok beaLines =>
      let blsEvents := normalize_bls_events_to_utc (filter_events blsLines (str "BLS") now)
      let beaEvents := filter_events beaLines (str "BEA") now
      match fomcText with
      | .error e => .error e
      | .ok text =>
        let fomcEvents := scrape_fomc_events text now nowSample
        .ok (calHeader ++ (blsEvents ++ beaEvents ++ fomcEvents).flatten ++ calFooter)

/-- A well-formed input stream for the extractor is a sequence of chunks:
stray lines and VEVENT blocks (begin line, interior lines, end line). -/
inductive Chunk where
  | junk (l : Line)
  | blk (b : Line) (body : List Line) (e : Line)

/-- The lines of one chunk. -/
def chunkLines : Chunk → List Line
  | .junk l => [l]
  | .blk b body e => b :: body ++ [e]

/-- The raw line stream of a chunk sequence. -/
def renderChunks (cs : List Chunk) : List Line := (cs.map chunkLines).flatten

/-- Well-formedness: stray lines and interior lines carry neither block
marker; a block's boundary lines carry theirs. -/
def ChunkWF : Chunk → Prop
  | .junk l => beginMark.isPrefixOf l = false ∧ endMark.isPrefixOf l = false
  | .blk b body e => beginMark.isPrefixOf b = true ∧ endMark.isPrefixOf e = true ∧
      ∀ l ∈ body, beginMark.isPrefixOf l = false ∧ endMark.isPrefixOf l = false

instance : ∀ c : Chunk, Decidable (ChunkWF c) := fun c => by
  cases c <;> simp only [ChunkWF] <;> infer_instance

/-- One `DTSTART` parse attempt of the extractor loop. -/
def dtUpd (acc : Option DateTime) (l : Line) : Option DateTime :=
  if dtstartMark.isPrefixOf l then
    match parse_dtstart l with
    | some dt => some dt
    | none => acc
  else acc

/-- The start the extractor records for a block: the last interior `DTSTART`
line that parsed, if any. -/
def recordedStart (body : List Line) : Option DateTime := body.foldl dtUpd none

/-- The claimed retention predicate: some interior line carries a topical
keyword, and either no `DTSTART` line parsed or the recorded start is at or
after the run's fixed reference instant. -/
def keepBlock (body : List Line) (now : DateTime) : Bool :=
  body.any hasKeyword &&
    (match recordedStart body with
     | none => true
     | some dt => dtLe now dt)

/-- The blocks the specification says survive, annotated. -/
def keptEvents (cs : List Chunk) (tag : Line) (now : DateTime) : List (List Line) :=
  cs.filterMap (fun c =>
    match c with
    | .junk _ => none
    | .blk b body e =>
      if keepBlock body now then some (annotate_source (b :: body ++ [e]) tag)
      else none)

/-- Invariant of the scraper's accumulator: the UID and date lines of the
accumulated events correspond one-to-one to the `seen_dates` keys, and the
keys are pairwise distinct. -/
def scrapeInv (st : List (List Line) × List Line) : Prop :=
  st.1.map (fun ev => ev[1]?) =
    st.2.map (fun k => some (str "UID:FOMC-" ++ k ++ str "@us-macro")) ∧
  st.1.map (fun ev => ev[3]?) =
    st.2.map (fun k => some (str "DTSTART;VALUE=DATE:" ++ k)) ∧
  st.2.Nodup

/-- A concrete run instant used by witnesses: the module-import `NOW`. -/
def exNow : DateTime := ⟨2020, 1, 1, 0, 0, 0⟩

/-- A concrete later clock sample used by witnesses: the `datetime.now`
sample taken inside `scrape_fomc_events`, five seconds after `exNow`. -/
def exNow2 : DateTime := ⟨2020, 1, 1, 0, 0, 5⟩

/-- A concrete flattened FOMC page used by witnesses. -/
def exFomcText : Line := str "2026 FOMC Meetings\nJanuary 27-28*"

/-- A concrete well-formed extractor input used by the C1 witness. -/
def exChunks : List Chunk :=
  [Chunk.junk (str "PRODID:x"),
   Chunk.blk (str "BEGIN:VEVENT")
     [str "SUMMARY:Employment Situation", str "DTSTART:20300101T000000Z"]
     (str "END:VEVENT"),
   Chunk.blk (str "BEGIN:VEVENT") [str "SUMMARY:Holiday"] (str "END:VEVENT")]

/-- A concrete BEA feed carrying a zone-qualified start, used against C2. -/
def exBeaLines : List Line :=
  [str "BEGIN:VEVENT",
   str "DTSTART;TZID=US-Eastern:20270109T083000",
   str "SUMMARY:Consumer Price Index",
   str "END:VEVENT"]

/-- `isOk` on fetch results. -/
def exceptOk {α : Type} : Except String α → Bool
  | .ok _ => true
  | .error _ => false

/-! ## General helper lemmas -/

/-- A prefix of `b ++ t`, cut at `b.length`, is a prefix of `b`. -/
theorem prefixOf_append_take {a b t : Line} (h : a.isPrefixOf (b ++ t) = true) :
    (a.take b.length).isPrefixOf b = true := by
  rw [List.isPrefixOf_iff_prefix] at h ⊢
  obtain ⟨r, hr⟩ := h
  have h1 : a.take b.length <+: (a ++ r).take b.length :=
    ⟨r.take (b.length - a.length), (List.take_append_eq_append_take ..).symm⟩
  rwa [hr, List.take_left] at h1

/-- `afterColon` fails exactly on colon-free lines. -/
theorem afterColon_none_iff (l : Line) : afterColon l = none ↔ ':' ∉ l := by
  induction l with
  | nil => simp [afterColon]
  | cons c r ih =>
    by_cases h : c = ':'
    · simp [afterColon, h]
    · simp [afterColon, if_neg h, ih, Ne.symm h]

/-- A successful `parseNaive` yields a structurally valid datetime. -/
theorem parseNaive_valid {v : Line} {t : DateTime} (h : parseNaive v = some t) : ValidDT t := by
  unfold parseNaive at h
  split at h
  · simp only [Option.bind_eq_bind, Option.bind_eq_some, Option.pure_def] at h
    obtain ⟨y, _, m, _, d, _, hh, _, mi, _, ss, _, hfin⟩ := h
    by_cases hv : ValidDT ⟨y, m, d, hh, mi, ss⟩
    · simp only [hv, if_true, Option.some_inj] at hfin
      exact hfin ▸ hv
    · simp [hv] at hfin
  · exact absurd h (by simp)

/-- A successful `parseZulu` yields a structurally valid datetime. -/
theorem parseZulu_valid {v : Line} {t : DateTime} (h : parseZulu v = some t) : ValidDT t := by
  unfold parseZulu at h
  split at h
  · exact parseNaive_valid h
  · exact absurd h (by simp)

/-- A successful `parseDateOnly` yields a structurally valid datetime. -/
theorem parseDateOnly_valid {v : Line} {t : DateTime} (h : parseDateOnly v = some t) : ValidDT t := by
  unfold parseDateOnly at h
  split at h
  · simp only [Option.bind_eq_bind, Option.bind_eq_some, Option.pure_def] at h
    obtain ⟨y, _, m, _, d, _, hfin⟩ := h
    by_cases hv : ValidDT ⟨y, m, d, 0, 0, 0⟩
    · simp only [hv, if_true, Option.some_inj] at hfin
      exact hfin ▸ hv
    · simp [hv] at hfin
  · exact absurd h (by simp)

/-- C10: `parse_dtstart` is total on arbitrary lines: a colon-free line
yields `none`; a value part matching none of the three accepted shapes
yields `none`; and any returned value is a structurally valid UTC-tagged
datetime — never an error. -/
theorem parse_dtstart_total (l : Line) :
    (':' ∉ l → parse_dtstart l = none) ∧
    (∀ rest, afterColon l = some rest →
      parseZulu (stripWS rest) = none →
      parseNaive (stripWS rest) = none →
      parseDateOnly (stripWS rest) = none →
      parse_dtstart l = none) ∧
    (∀ t, parse_dtstart l = some t → ValidDT t) := by
  refine ⟨?_, ?_, ?_⟩
  · intro h
    have hn : afterColon l = none := (afterColon_none_iff l).2 h
    simp [parse_dtstart, hn]
  · intro rest hres hz hn hd
    simp only [parse_dtstart, hres]
    split
    · split
      · exact hz
      · exact hn
    · exact hd
  · intro t h
    unfold parse_dtstart at h
    cases hac : afterColon l with
    | none => rw [hac] at h; exact absurd h (by simp)
    | some rest =>
      rw [hac] at h
      dsimp only at h
      split at h
      · split at h
        · exact parseZulu_valid h
        · exact parseNaive_valid h
      · exact parseDateOnly_valid h

/-- Witness for C10 at concrete inputs: a colon-free line and a line whose
value matches no accepted shape both give `none`. -/
theorem parse_dtstart_total_witness :
    parse_dtstart (str "DTSTART notacolonline") = none ∧
    parse_dtstart (str "DTSTART:hello") = none :=
  ⟨(parse_dtstart_total (str "DTSTART notacolonline")).1 (by decide),
   (parse_dtstart_total (str "DTSTART:hello")).2.1 (str "hello") (by decide)
     (by decide) (by decide) (by decide)⟩

/-! ## Calendar arithmetic -/

set_option maxHeartbeats 1600000 in
/-- `civilDays` counts consecutive civil dates consecutively: the day number
of `nextDay` is one more, across month, leap-February and year boundaries. -/
theorem civilDays_nextDay {y m d : Nat} (hy : 1 ≤ y) (hm1 : 1 ≤ m) (hm2 : m ≤ 12)
    (hd1 : 1 ≤ d) (hd2 : d ≤ daysInMonth y m) :
    civilDays (nextDay y m d).1 (nextDay y m d).2.1 (nextDay y m d).2.2 =
      civilDays y m d + 1 := by
  unfold nextDay
  by_cases hlt : d < daysInMonth y m
  · simp only [if_pos hlt]
    by_cases hm : m ≤ 2
    · simp only [civilDays, if_pos hm]; omega
    · simp only [civilDays, if_neg hm]; omega
  · have hd : d = daysInMonth y m := le_antisymm hd2 (Nat.not_lt.mp hlt)
    subst hd
    by_cases hm12 : m < 12
    · simp only [if_neg hlt, if_pos hm12]
      by_cases h2 : m = 2
      · subst h2
        cases hL : isLeap y with
        | false =>
          have hdim : daysInMonth y 2 = 28 := by simp [daysInMonth, hL]
          rw [hdim]
          simp only [isLeap] at hL
          simp only [Bool.or_eq_false_iff, Bool.and_eq_false_iff, beq_eq_false_iff_ne,
            ne_eq, bne_eq_false_iff_eq] at hL
          simp only [civilDays]
          norm_num
          omega
        | true =>
          have hdim : daysInMonth y 2 = 29 := by simp [daysInMonth, hL]
          rw [hdim]
          simp only [isLeap] at hL
          simp only [Bool.or_eq_true, Bool.and_eq_true, beq_iff_eq, bne_iff_ne, ne_eq] at hL
          simp only [civilDays]
          norm_num
          omega
      · interval_cases m <;>
          first
          | exact absurd rfl h2
          | (simp only [daysInMonth] at *
             simp only [civilDays]
             norm_num at *
             try omega)
    · have hm : m = 12 := by omega
      subst hm
      have h31 : daysInMonth y 12 = 31 := by norm_num [daysInMonth]
      rw [h31]
      simp only [if_neg hlt, if_neg hm12]
      simp only [civilDays]
      norm_num

/-- Adding up to a day of hours to a valid datetime advances the instant by
exactly `h * 3600` seconds. -/
theorem civilSecs_addHours {t : DateTime} (hv : ValidDT t) (h : Nat) :
    civilSecs (addHours t h) = civilSecs t + h * 3600 := by
  obtain ⟨hy, _, hm1, hm2, hd1, hd2, hhh, hmi, hss⟩ := hv
  unfold addHours
  by_cases hc : t.hh + h < 24
  · simp only [if_pos hc, civilSecs]
    omega
  · simp only [if_neg hc, civilSecs]
    have hnd := civilDays_nextDay hy hm1 hm2 hd1 hd2
    rw [hnd]
    omega

/-- The Eastern offset is 4 or 5 hours, and 4 exactly in daylight time. -/
theorem easternOffset_cases (t : DateTime) :
    (easternOffset t = 4 ∨ easternOffset t = 5) ∧
      (easternOffset t = 4 ↔ isEasternDST t = true) := by
  unfold easternOffset
  cases h : isEasternDST t <;> simp [h]

/-- `dtstartQual` is not a prefix of any `DTEND;TZID=US-Eastern:` line. -/
theorem dtstartQual_not_prefix_dtend (rest : Line) :
    dtstartQual.isPrefixOf (dtendQual ++ rest) = false := by
  cases hb : dtstartQual.isPrefixOf (dtendQual ++ rest) with
  | false => rfl
  | true => exact absurd (prefixOf_append_take hb) (by decide)

/-- Neither qualifier is a prefix of a rewritten `DTSTART:...Z` line. -/
theorem quals_not_prefix_rewritten_start (rest : Line) :
    dtstartQual.isPrefixOf (str "DTSTART:" ++ rest) = false ∧
    dtendQual.isPrefixOf (str "DTSTART:" ++ rest) = false := by
  constructor
  · cases hb : dtstartQual.isPrefixOf (str "DTSTART:" ++ rest) with
    | false => rfl
    | true => exact absurd (prefixOf_append_take hb) (by decide)
  · cases hb : dtendQual.isPrefixOf (str "DTSTART:" ++ rest) with
    | false => rfl
    | true => exact absurd (prefixOf_append_take hb) (by decide)

/-- Neither qualifier is a prefix of a rewritten `DTEND:...Z` line. -/
theorem quals_not_prefix_rewritten_end (rest : Line) :
    dtstartQual.isPrefixOf (str "DTEND:" ++ rest) = false ∧
    dtendQual.isPrefixOf (str "DTEND:" ++ rest) = false := by
  constructor
  · cases hb : dtstartQual.isPrefixOf (str "DTEND:" ++ rest) with
    | false => rfl
    | true => exact absurd (prefixOf_append_take hb) (by decide)
  · cases hb : dtendQual.isPrefixOf (str "DTEND:" ++ rest) with
    | false => rfl
    | true => exact absurd (prefixOf_append_take hb) (by decide)

/-- A successful `rewriteQualified` yields `head` followed by a formatted
UTC timestamp. -/
theorem rewriteQualified_shape {head v nl : Line}
    (h : rewriteQualified head v = some nl) : ∃ u, nl = head ++ fmtTS u := by
  unfold rewriteQualified at h
  simp only [Option.bind_eq_bind, Option.bind_eq_some, Option.pure_def,
    Option.some_inj] at h
  obtain ⟨naive, -, u, -, hnl⟩ := h
  exact ⟨u, hnl.symm⟩

/-- `addHours` advances the year by at most one. -/
theorem addHours_y_le (t : DateTime) (h : Nat) : (addHours t h).y ≤ t.y + 1 := by
  unfold addHours nextDay
  split
  · simp
  · split
    · simp
    · split <;> simp

/-- Below the final representable year the UTC conversion always succeeds
and is `addHours` by the Eastern offset. -/
theorem easternToUtc_ok {t : DateTime} (h : t.y ≤ 9998) :
    easternToUtc t = some (addHours t (easternOffset t)) := by
  have h9 : (addHours t (easternOffset t)).y ≤ 9999 := by
    have := addHours_y_le t (easternOffset t)
    omega
  simp [easternToUtc, h9]

/-- C4 (amended): a start or end field carrying the `TZID=US-Eastern`
qualifier whose parseable wall-clock value falls in a year from 2007
through 2037 — the window in which the zone's transition table follows the
current US DST rule embedded in `isEasternDST` — is rewritten to the
explicit-UTC form, an instant exactly `4 * 3600` seconds after the naive
wall-clock reading in Eastern daylight time and exactly `5 * 3600` seconds
after it in standard time; every line lacking the qualifier is left
byte-identical. (Outside the window the zone tables apply historical or
truncated offsets not modelled here, and near `datetime.max` the conversion
overflows and the line is kept — see the counterexample.) -/
theorem claim_C4_amended (rest : Line) (naive : DateTime)
    (hp : parseNaive (stripWS rest) = some naive)
    (hy1 : 2007 ≤ naive.y) (hy2 : naive.y ≤ 2037) :
    (normalizeLine (dtstartQual ++ rest) =
        str "DTSTART:" ++ fmtTS (addHours naive (easternOffset naive)) ∧
     normalizeLine (dtendQual ++ rest) =
        str "DTEND:" ++ fmtTS (addHours naive (easternOffset naive))) ∧
    civilSecs (addHours naive (easternOffset naive)) =
      civilSecs naive + easternOffset naive * 3600 ∧
    (easternOffset naive = 4 ∨ easternOffset naive = 5) ∧
    (easternOffset naive = 4 ↔ isEasternDST naive = true) ∧
    (∀ l : Line, dtstartQual.isPrefixOf l = false → dtendQual.isPrefixOf l = false →
      normalizeLine l = l) := by
  have hc : easternToUtc naive = some (addHours naive (easternOffset naive)) :=
    easternToUtc_ok (by omega)
  have hself : dtstartQual.isPrefixOf (dtstartQual ++ rest) = true :=
    List.isPrefixOf_iff_prefix.mpr (List.prefix_append _ _)
  have hselfe : dtendQual.isPrefixOf (dtendQual ++ rest) = true :=
    List.isPrefixOf_iff_prefix.mpr (List.prefix_append _ _)
  refine ⟨⟨?_, ?_⟩, ?_, (easternOffset_cases naive).1, (easternOffset_cases naive).2, ?_⟩
  · simp [normalizeLine, hself, List.drop_left, rewriteQualified, hp, hc]
  · simp [normalizeLine, hselfe, dtstartQual_not_prefix_dtend, List.drop_left,
      rewriteQualified, hp, hc]
  · exact civilSecs_addHours (parseNaive_valid hp) (easternOffset naive)
  · intro l h1 h2
    simp [normalizeLine, h1, h2]

/-- Counterexample to C4 as stated: `99991231T220000` is a parseable
wall-clock value on a qualified line, but its UTC conversion overflows
`datetime.max`, so the fail-soft except clause keeps the line unchanged
instead of rewriting it. The verdict does not depend on the zone table at
the horizon: 22:00 plus either candidate offset (4 or 5 hours) passes
`datetime.max`, and both the real table and the modelled rule give EST in
December. -/
theorem claim_C4_counterexample :
    dtstartQual.isPrefixOf (dtstartQual ++ str "99991231T220000") = true ∧
    (parseNaive (stripWS (str "99991231T220000"))).isSome = true ∧
    normalizeLine (dtstartQual ++ str "99991231T220000") =
      dtstartQual ++ str "99991231T220000" := by decide

/-- Witness for C4 (amended) at a concrete in-window EST instant:
`20260109T083000` qualified Eastern becomes `DTSTART:20260109T133000Z`. -/
theorem claim_C4_amended_witness :
    parseNaive (stripWS (str "20260109T083000")) = some ⟨2026, 1, 9, 8, 30, 0⟩ ∧
    (2007 ≤ (⟨2026, 1, 9, 8, 30, 0⟩ : DateTime).y ∧
      (⟨2026, 1, 9, 8, 30, 0⟩ : DateTime).y ≤ 2037) ∧
    normalizeLine (dtstartQual ++ str "20260109T083000") =
      str "DTSTART:" ++
        fmtTS (addHours ⟨2026, 1, 9, 8, 30, 0⟩ (easternOffset ⟨2026, 1, 9, 8, 30, 0⟩)) ∧
    addHours (⟨2026, 1, 9, 8, 30, 0⟩ : DateTime)
        (easternOffset ⟨2026, 1, 9, 8, 30, 0⟩) = ⟨2026, 1, 9, 13, 30, 0⟩ :=
  ⟨by decide, ⟨by decide, by decide⟩,
   ((claim_C4_amended (str "20260109T083000") ⟨2026, 1, 9, 8, 30, 0⟩
      (by decide) (by decide) (by decide)).1).1,
   by decide⟩

/-- `normalizeLine` is idempotent on every line. -/
theorem normalizeLine_idem (l : Line) : normalizeLine (normalizeLine l) = normalizeLine l := by
  by_cases h1 : dtstartQual.isPrefixOf l = true
  · have hl : normalizeLine l =
        match rewriteQualified (str "DTSTART:") (l.drop dtstartQual.length) with
        | some nl => nl
        | none => l := by
      simp [normalizeLine, h1]
    cases hr : rewriteQualified (str "DTSTART:") (l.drop dtstartQual.length) with
    | some nl =>
      rw [hl, hr]
      obtain ⟨u, hu⟩ := rewriteQualified_shape hr
      subst hu
      simp [normalizeLine, (quals_not_prefix_rewritten_start (fmtTS u)).1,
        (quals_not_prefix_rewritten_start (fmtTS u)).2]
    | none =>
      rw [hl, hr]
      rw [hl, hr]
  · by_cases h2 : dtendQual.isPrefixOf l = true
    · have hl : normalizeLine l =
          match rewriteQualified (str "DTEND:") (l.drop dtendQual.length) with
          | some nl => nl
          | none => l := by
        simp [normalizeLine, h1, h2]
      cases hr : rewriteQualified (str "DTEND:") (l.drop dtendQual.length) with
      | some nl =>
        rw [hl, hr]
        obtain ⟨u, hu⟩ := rewriteQualified_shape hr
        subst hu
        simp [normalizeLine, (quals_not_prefix_rewritten_end (fmtTS u)).1,
          (quals_not_prefix_rewritten_end (fmtTS u)).2]
      | none =>
        rw [hl, hr]
        rw [hl, hr]
    · have hl : normalizeLine l = l := by
        simp [normalizeLine, h1, h2]
      rw [hl, hl]

/-- C8: zone normalization is idempotent — a second application of
`normalize_bls_events_to_utc` to its own output changes nothing, since
already-rewritten fields no longer carry the named-zone qualifier and
fallback lines fail to convert again identically. -/
theorem claim_C8 (events : List (List Line)) :
    normalize_bls_events_to_utc (normalize_bls_events_to_utc events) =
      normalize_bls_events_to_utc events := by
  simp only [normalize_bls_events_to_utc, List.map_map, Function.comp_def,
    normalizeLine_idem]

/-! ## Source annotation (C3) -/

/-- After the annotation has been inserted, the loop only copies lines. -/
theorem annotFold_true (tag : Line) (acc : List Line) (ls : List Line) :
    ls.foldl (annotStep tag) (acc, true) = (acc ++ ls, true) := by
  induction ls generalizing acc with
  | nil => simp
  | cons l r ih =>
    simp only [List.foldl_cons, annotStep, Bool.not_true, Bool.false_and,
      Bool.false_eq_true, if_false, ih]
    simp

/-- While no `DESCRIPTION:` line has been seen, the loop only copies lines. -/
theorem annotFold_false (tag : Line) (acc : List Line) (ls : List Line)
    (h : ∀ l ∈ ls, descMark.isPrefixOf l = false) :
    ls.foldl (annotStep tag) (acc, false) = (acc ++ ls, false) := by
  induction ls generalizing acc with
  | nil => simp
  | cons l r ih =>
    have hl : descMark.isPrefixOf l = false := h l (List.mem_cons_self l r)
    simp only [List.foldl_cons, annotStep, Bool.not_false, Bool.true_and, hl,
      Bool.false_eq_true, if_false]
    rw [ih _ (fun x hx => h x (List.mem_cons_of_mem l hx))]
    simp

/-- C3: source annotation adds exactly one line. If the block contains a
`DESCRIPTION:` line, the annotation line is spliced in immediately after the
first one and no comment line is added; if the block contains none, the
dedicated comment line is inserted at index 1, i.e. as the second line right
after the block's first line. -/
theorem claim_C3 (lines : List Line) (tag : Line) :
    (∀ pre dl post, lines = pre ++ dl :: post →
      descMark.isPrefixOf dl = true →
      (∀ l ∈ pre, descMark.isPrefixOf l = false) →
      annotate_source lines tag = pre ++ dl :: descAnnot tag :: post) ∧
    ((∀ l ∈ lines, descMark.isPrefixOf l = false) →
      annotate_source lines tag = lines.take 1 ++ [commentAnnot tag] ++ lines.drop 1) := by
  constructor
  · intro pre dl post hsplit hdl hpre
    subst hsplit
    unfold annotate_source
    rw [List.foldl_append]
    rw [annotFold_false tag [] pre hpre]
    simp only [List.nil_append, List.foldl_cons, annotStep, Bool.not_false,
      Bool.true_and, hdl, if_true]
    rw [annotFold_true]
    simp
  · intro h
    unfold annotate_source
    rw [annotFold_false tag [] lines h]
    simp

/-- Witness for C3 at concrete blocks: with a description field the
annotation directly follows it; without one the comment becomes line 2. -/
theorem claim_C3_witness :
    annotate_source [str "BEGIN:VEVENT", str "DESCRIPTION:CPI", str "END:VEVENT"]
        (str "BLS") =
      [str "BEGIN:VEVENT", str "DESCRIPTION:CPI", descAnnot (str "BLS"),
       str "END:VEVENT"] ∧
    annotate_source [str "BEGIN:VEVENT", str "END:VEVENT"] (str "BEA") =
      [str "BEGIN:VEVENT", commentAnnot (str "BEA"), str "END:VEVENT"] :=
  ⟨(claim_C3 [str "BEGIN:VEVENT", str "DESCRIPTION:CPI", str "END:VEVENT"]
      (str "BLS")).1 [str "BEGIN:VEVENT"] (str "DESCRIPTION:CPI") [str "END:VEVENT"]
      (by decide) (by decide) (by decide),
   (claim_C3 [str "BEGIN:VEVENT", str "END:VEVENT"] (str "BEA")).2 (by decide)⟩

/-! ## ICS extraction (C1) -/

/-- A line starting with the end marker does not start with the begin marker. -/
theorem not_beginMark_of_endMark {e : Line} (h : endMark.isPrefixOf e = true) :
    beginMark.isPrefixOf e = false := by
  rw [List.isPrefixOf_iff_prefix] at h
  obtain ⟨t, rfl⟩ := h
  cases hb : beginMark.isPrefixOf (endMark ++ t) with
  | false => rfl
  | true => exact absurd (prefixOf_append_take hb) (by decide)

/-- A stray line outside any block leaves the scan state unchanged. -/
theorem filterStep_junk {now : DateTime} {tag l : Line} {s : FilterState}
    (hin : s.inEvent = false)
    (hb : beginMark.isPrefixOf l = false) (he : endMark.isPrefixOf l = false) :
    filterStep now tag s l = s := by
  simp [filterStep, hb, he, hin]

/-- Folding interior lines of a block accumulates them, the keyword flag and
the recorded start, and stays inside the event. -/
theorem filterFold_body (now : DateTime) (tag : Line) (body : List Line)
    (s : FilterState) (hin : s.inEvent = true)
    (hw : ∀ l ∈ body, beginMark.isPrefixOf l = false ∧ endMark.isPrefixOf l = false) :
    body.foldl (filterStep now tag) s =
      { events := s.events, current := s.current ++ body, inEvent := true,
        incl := s.incl || body.any hasKeyword,
        eventDt := body.foldl dtUpd s.eventDt } := by
  induction body generalizing s with
  | nil =>
    cases s
    simp_all
  | cons l r ih =>
    have hl := hw l (List.mem_cons_self l r)
    have hs : filterStep now tag s l =
        { events := s.events, current := s.current ++ [l], inEvent := true,
          incl := s.incl || hasKeyword l, eventDt := dtUpd s.eventDt l } := by
      cases s
      simp_all [filterStep, dtUpd]
    rw [List.foldl_cons, hs,
      ih _ rfl (fun x hx => hw x (List.mem_cons_of_mem l hx))]
    simp [List.append_assoc, Bool.or_assoc]

/-- Folding one whole well-formed block from any outside state appends the
annotated block exactly when the retention predicate holds, and returns to
the outside state. -/
theorem filterFold_block (now : DateTime) (tag : Line) (b : Line) (body : List Line)
    (e : Line) (s : FilterState)
    (hwb : beginMark.isPrefixOf b = true) (hwe : endMark.isPrefixOf e = true)
    (hw : ∀ l ∈ body, beginMark.isPrefixOf l = false ∧ endMark.isPrefixOf l = false) :
    (b :: body ++ [e]).foldl (filterStep now tag) s =
      { events := s.events ++
          (if keepBlock body now then [annotate_source (b :: body ++ [e]) tag] else []),
        current := [], inEvent := false, incl := body.any hasKeyword,
        eventDt := none } := by
  have hb : filterStep now tag s b =
      { events := s.events, current := [b], inEvent := true, incl := false,
        eventDt := none } := by
    simp [filterStep, hwb]
  have h1 : List.foldl (filterStep now tag) s (b :: body) =
      { events := s.events, current := [b] ++ body, inEvent := true,
        incl := false || body.any hasKeyword,
        eventDt := body.foldl dtUpd none } := by
    rw [List.foldl_cons, hb, filterFold_body now tag body _ rfl hw]
  rw [List.foldl_append, h1]
  simp only [List.foldl_cons, List.foldl_nil]
  have hnb : beginMark.isPrefixOf e = false := not_beginMark_of_endMark hwe
  simp only [filterStep, hnb, Bool.false_eq_true, if_false, hwe, if_true,
    Bool.false_or]
  simp only [keepBlock, recordedStart]
  congr 1
  split <;> simp

/-- Folding a rendered well-formed chunk stream from an outside state with an
empty accumulator appends exactly the kept events. -/
theorem filterFold_chunks (now : DateTime) (tag : Line) (cs : List Chunk)
    (s : FilterState) (hin : s.inEvent = false) (hcur : s.current = [])
    (hwf : ∀ c ∈ cs, ChunkWF c) :
    ((renderChunks cs).foldl (filterStep now tag) s).events =
      s.events ++ keptEvents cs tag now := by
  induction cs generalizing s with
  | nil => simp [renderChunks, keptEvents]
  | cons c cs' ih =>
    have hc := hwf c (List.mem_cons_self c cs')
    have hrest : ∀ x ∈ cs', ChunkWF x := fun x hx => hwf x (List.mem_cons_of_mem c hx)
    have hrender : renderChunks (c :: cs') = chunkLines c ++ renderChunks cs' := by
      simp [renderChunks]
    rw [hrender, List.foldl_append]
    cases c with
    | junk l =>
      obtain ⟨h1, h2⟩ := hc
      simp only [chunkLines, List.foldl_cons, List.foldl_nil]
      rw [filterStep_junk hin h1 h2, ih s hin hcur hrest]
      simp [keptEvents]
    | blk b body e =>
      obtain ⟨h1, h2, h3⟩ := hc
      simp only [chunkLines]
      rw [filterFold_block now tag b body e s h1 h2 h3]
      rw [ih _ rfl rfl hrest]
      by_cases hk : keepBlock body now = true
      · simp [keptEvents, hk, List.append_assoc]
      · simp only [Bool.not_eq_true] at hk
        simp [keptEvents, hk]

/-- C1: for every well-formed stream of stray lines and VEVENT blocks and
every provenance tag, `filter_events` retains a block if and only if some
line strictly inside it carries one of the five topical keywords and either
no interior `DTSTART` line parsed or the last recorded parsed start is at or
after the run's fixed `NOW` — the retained blocks, source-annotated, in
stream order, are exactly `keptEvents`. -/
theorem claim_C1 (cs : List Chunk) (tag : Line) (now : DateTime)
    (hwf : ∀ c ∈ cs, ChunkWF c) :
    filter_events (renderChunks cs) tag now = keptEvents cs tag now := by
  unfold filter_events
  rw [filterFold_chunks now tag cs _ rfl rfl hwf]
  simp

/-- Witness for C1 at a concrete stream: of two well-formed blocks, exactly
the one with a keyword and a future start survives, source-annotated. -/
theorem claim_C1_witness :
    (∀ c ∈ exChunks, ChunkWF c) ∧
    filter_events (renderChunks exChunks) (str "BLS") exNow =
      keptEvents exChunks (str "BLS") exNow ∧
    keptEvents exChunks (str "BLS") exNow =
      [[str "BEGIN:VEVENT", commentAnnot (str "BLS"),
        str "SUMMARY:Employment Situation", str "DTSTART:20300101T000000Z",
        str "END:VEVENT"]] :=
  ⟨by decide, claim_C1 exChunks (str "BLS") exNow (by decide), by decide⟩

/-! ## Run abort on fetch failure (C9) -/

/-- C9: the merged output exists exactly when all three fetches succeeded;
a failing fetch propagates as an error before any output is produced, and a
successful run's output is the fixed container wrapped around the processed
events of the three sources, written only after all fetches. -/
theorem claim_C9 (bls bea : Except String (List Line)) (fomcText : Except String Line)
    (now nowSample : DateTime) :
    (exceptOk (mainResult bls bea fomcText now nowSample) = true ↔
      exceptOk bls = true ∧ exceptOk bea = true ∧ exceptOk fomcText = true) ∧
    (∀ out, mainResult bls bea fomcText now nowSample = .ok out →
      ∃ blsLines beaLines text, bls = .ok blsLines ∧ bea = .ok beaLines ∧
        fomcText = .ok text ∧
        out = calHeader ++
          (normalize_bls_events_to_utc (filter_events blsLines (str "BLS") now) ++
            filter_events beaLines (str "BEA") now ++
            scrape_fomc_events text now nowSample).flatten ++ calFooter) := by
  cases bls <;> cases bea <;> cases fomcText <;>
    simp [mainResult, exceptOk]

/-- Witness for C9: an all-successful run with empty sources produces
exactly the container header and footer. -/
theorem claim_C9_witness :
    ∃ blsLines beaLines text,
      (Except.ok ([] : List Line) : Except String (List Line)) = .ok blsLines ∧
      (Except.ok ([] : List Line) : Except String (List Line)) = .ok beaLines ∧
      (Except.ok ([] : Line) : Except String Line) = .ok text ∧
      calHeader ++ calFooter = calHeader ++
        (normalize_bls_events_to_utc (filter_events blsLines (str "BLS") exNow) ++
          filter_events beaLines (str "BEA") exNow ++
          scrape_fomc_events text exNow exNow2).flatten ++ calFooter :=
  (claim_C9 (.ok []) (.ok []) (.ok []) exNow exNow2).2
    (calHeader ++ calFooter) (by rfl)

/-! ## FOMC scraping (C5, C6, C7) -/

/-- Every event appended by a match fold is built by `synthEvent` from the
year, the matched month and the second matched day number of some match. -/
theorem matchFold_shape (year : Nat) (now ns : DateTime)
    (ms : List (Nat × Nat × Nat)) (st : List (List Line) × List Line) :
    ∀ ev ∈ (ms.foldl (processMatch year now ns) st).1,
      ev ∈ st.1 ∨ ∃ m ∈ ms, ev = synthEvent year (dateKey year m.1 m.2.2) ns := by
  induction ms generalizing st with
  | nil => exact fun ev hev => .inl hev
  | cons m r ih =>
    intro ev hev
    rw [List.foldl_cons] at hev
    rcases ih (processMatch year now ns st m) ev hev with h | ⟨m', hm', he⟩
    · unfold processMatch at h
      split at h
      · split at h
        · exact .inl h
        · split at h
          · exact .inl h
          · rcases List.mem_append.mp h with h' | h'
            · exact .inl h'
            · simp only [List.mem_singleton] at h'
              exact .inr ⟨m, List.mem_cons_self m r, h'⟩
      · exact .inl h
    · exact .inr ⟨m', List.mem_cons_of_mem m hm', he⟩

/-- Every event appended while scanning a list of years comes from a match
in that year's bounded section. -/
theorem yearFold_shape (text : Line) (now ns : DateTime) (ys : List Nat)
    (st : List (List Line) × List Line) :
    ∀ ev ∈ (ys.foldl (yearStep text now ns) st).1,
      ev ∈ st.1 ∨ ∃ y ∈ ys, ∃ sec, sectionFor text y = some sec ∧
        ∃ m ∈ findMatches sec.length sec,
          ev = synthEvent y (dateKey y m.1 m.2.2) ns := by
  induction ys generalizing st with
  | nil => exact fun ev hev => .inl hev
  | cons y r ih =>
    intro ev hev
    rw [List.foldl_cons] at hev
    rcases ih (yearStep text now ns st y) ev hev with h | ⟨y', hy', sec, hsec, m, hm, he⟩
    · unfold yearStep at h
      cases hsec : sectionFor text y with
      | none => rw [hsec] at h; exact .inl h
      | some sec =>
        rw [hsec] at h
        rcases matchFold_shape y now ns _ st ev h with h' | ⟨m, hm, he⟩
        · exact .inl h'
        · exact .inr ⟨y, List.mem_cons_self y r, sec, hsec, m, hm, he⟩
    · exact .inr ⟨y', List.mem_cons_of_mem y hy', sec, hsec, m, hm, he⟩

/-- Every scraped event block is synthesized from a scanned year, the month
of a pattern match in that year's section, and the match's second day. -/
theorem scrape_shape (text : Line) (now ns : DateTime) :
    ∀ ev ∈ scrape_fomc_events text now ns,
      ∃ y ∈ years_to_scan, ∃ sec, sectionFor text y = some sec ∧
        ∃ m ∈ findMatches sec.length sec,
          ev = synthEvent y (dateKey y m.1 m.2.2) ns := by
  intro ev hev
  unfold scrape_fomc_events at hev
  rcases yearFold_shape text now ns years_to_scan ([], []) ev hev with h | h
  · exact absurd h (List.not_mem_nil ev)
  · exact h

/-- C5: only the second matched day number is ever used to build a scraped
meeting date — every scraped block is `synthEvent` of the year, the matched
month and the match's second day — and concretely a page reading
`2026 FOMC Meetings ... January 27-28*` yields exactly one event dated
`20260128` (the match captures day one `27`, but no event carries it). -/
theorem claim_C5 :
    (∀ (text : Line) (now ns : DateTime) (ev : List Line),
      ev ∈ scrape_fomc_events text now ns →
      ∃ y ∈ years_to_scan, ∃ sec, sectionFor text y = some sec ∧
        ∃ m ∈ findMatches sec.length sec,
          ev = synthEvent y (dateKey y m.1 m.2.2) ns) ∧
    findMatches exFomcText.length exFomcText = [(1, 27, 28)] ∧
    scrape_fomc_events exFomcText exNow exNow2 =
      [synthEvent 2026 (str "20260128") exNow2] :=
  ⟨fun text now ns => scrape_shape text now ns, by decide, by decide⟩

/-- Witness for C5: the single scraped event of the concrete page is
synthesized from a match's month and second day. -/
theorem claim_C5_witness :
    synthEvent 2026 (str "20260128") exNow2 ∈
      scrape_fomc_events exFomcText exNow exNow2 ∧
    (∃ y ∈ years_to_scan, ∃ sec, sectionFor exFomcText y = some sec ∧
      ∃ m ∈ findMatches sec.length sec,
        synthEvent 2026 (str "20260128") exNow2 =
          synthEvent y (dateKey y m.1 m.2.2) exNow2) :=
  ⟨by decide, claim_C5.1 exFomcText exNow exNow2 _ (by decide)⟩

/-- One processed match preserves the scraper invariant. -/
theorem processMatch_inv (year : Nat) (now ns : DateTime)
    (st : List (List Line) × List Line) (m : Nat × Nat × Nat)
    (h : scrapeInv st) : scrapeInv (processMatch year now ns st m) := by
  obtain ⟨h1, h2, h3⟩ := h
  unfold processMatch
  split
  · split
    · exact ⟨h1, h2, h3⟩
    · split
      · exact ⟨h1, h2, h3⟩
      · next hnew =>
        refine ⟨?_, ?_, ?_⟩
        · simp only [List.map_append, h1, synthEvent]
          simp
        · simp only [List.map_append, h2, synthEvent]
          simp
        · simp [List.nodup_append, h3, hnew]
  · exact ⟨h1, h2, h3⟩

/-- A match fold preserves the scraper invariant. -/
theorem matchFold_inv (year : Nat) (now ns : DateTime)
    (ms : List (Nat × Nat × Nat)) (st : List (List Line) × List Line)
    (h : scrapeInv st) : scrapeInv (ms.foldl (processMatch year now ns) st) := by
  induction ms generalizing st with
  | nil => exact h
  | cons m r ih => exact ih _ (processMatch_inv year now ns st m h)

/-- A year fold preserves the scraper invariant. -/
theorem yearFold_inv (text : Line) (now ns : DateTime) (ys : List Nat)
    (st : List (List Line) × List Line)
    (h : scrapeInv st) : scrapeInv (ys.foldl (yearStep text now ns) st) := by
  induction ys generalizing st with
  | nil => exact h
  | cons y r ih =>
    refine ih _ ?_
    unfold yearStep
    cases hsec : sectionFor text y with
    | none => exact h
    | some sec => exact matchFold_inv y now ns _ st h

/-- C6: within one run no two scraper-synthesized blocks share a calendar
date — their `DTSTART;VALUE=DATE:` lines, which are determined by the date
key alone, are pairwise distinct — and hence, the UID being determined
injectively by the date key, no two blocks share a UID line. -/
theorem claim_C6 (text : Line) (now ns : DateTime) :
    ((scrape_fomc_events text now ns).map (fun ev => ev[3]?)).Nodup ∧
    ((scrape_fomc_events text now ns).map (fun ev => ev[1]?)).Nodup := by
  have hinv : scrapeInv (years_to_scan.foldl (yearStep text now ns) ([], [])) :=
    yearFold_inv text now ns years_to_scan ([], []) ⟨rfl, rfl, List.nodup_nil⟩
  obtain ⟨h1, h2, h3⟩ := hinv
  unfold scrape_fomc_events
  constructor
  · rw [h2]
    refine List.Nodup.map ?_ h3
    intro a b hab
    simpa using hab
  · rw [h1]
    refine List.Nodup.map ?_ h3
    intro a b hab
    simp only [Option.some_inj] at hab
    rw [List.append_assoc, List.append_assoc] at hab
    exact List.append_cancel_right (List.append_cancel_left hab)

/-- C7 (amended): every scraper-synthesized block's `DTSTAMP` line carries
the one `datetime.now` sample taken at the start of `scrape_fomc_events` —
the same single value for all blocks of the run — not the module-level
`NOW` used for recency filtering. -/
theorem claim_C7_amended (text : Line) (now ns : DateTime) :
    ∀ ev ∈ scrape_fomc_events text now ns,
      ev[2]? = some (str "DTSTAMP:" ++ fmtTS ns) := by
  intro ev hev
  obtain ⟨y, -, sec, -, m, -, rfl⟩ := scrape_shape text now ns ev hev
  simp [synthEvent]

/-- Counterexample to C7 as stated: in a run whose module-level `NOW` is
`exNow` but whose in-scrape clock sample is the later `exNow2`, the emitted
block's `DTSTAMP` differs from the fixed `NOW`. -/
theorem claim_C7_counterexample :
    (scrape_fomc_events exFomcText exNow exNow2).length = 1 ∧
    exNow ≠ exNow2 ∧
    ∀ ev ∈ scrape_fomc_events exFomcText exNow exNow2,
      ev[2]? ≠ some (str "DTSTAMP:" ++ fmtTS exNow) := by decide

/-- Witness for C7 (amended) at the concrete page: the emitted block's
`DTSTAMP` is the in-scrape sample. -/
theorem claim_C7_amended_witness :
    synthEvent 2026 (str "20260128") exNow2 ∈
      scrape_fomc_events exFomcText exNow exNow2 ∧
    (synthEvent 2026 (str "20260128") exNow2)[2]? =
      some (str "DTSTAMP:" ++ fmtTS exNow2) :=
  ⟨by decide,
   claim_C7_amended exFomcText exNow exNow2 _ (by decide)⟩

/-! ## UTC residue in the final output (C2) -/

/-- A pattern that mismatches `b` within `b`'s length is no prefix of any
`b ++ t`. -/
theorem not_prefixOf_append {a b : Line}
    (hab : (a.take b.length).isPrefixOf b = false) (t : Line) :
    a.isPrefixOf (b ++ t) = false := by
  cases hb : a.isPrefixOf (b ++ t) with
  | false => rfl
  | true => exact absurd (prefixOf_append_take hb) (by simp [hab])

/-- `dtendQual` is not a prefix of any `DTSTART;TZID=US-Eastern:` line. -/
theorem dtendQual_not_prefix_dtstart (rest : Line) :
    dtendQual.isPrefixOf (dtstartQual ++ rest) = false :=
  not_prefixOf_append (by decide) rest

/-- C2 (amended): after zone normalization — which `main` applies only to the
BLS events — a BLS event line still carrying a start/end `TZID=US-Eastern`
qualifier is exactly one whose value failed to parse or convert; and every
scraper-synthesized block has a civil-date `DTSTART;VALUE=DATE:` start and no
line carrying either qualifier. BEA events are emitted with no normalization
at all, so a qualified BEA line survives into the output verbatim (see the
counterexample). -/
theorem claim_C2_amended :
    (∀ (events : List (List Line)) (ev : List Line) (l : Line),
      ev ∈ normalize_bls_events_to_utc events → l ∈ ev →
      (dtstartQual.isPrefixOf l = true →
        rewriteQualified (str "DTSTART:") (l.drop dtstartQual.length) = none) ∧
      (dtendQual.isPrefixOf l = true →
        rewriteQualified (str "DTEND:") (l.drop dtendQual.length) = none)) ∧
    (∀ (text : Line) (now ns : DateTime) (ev : List Line),
      ev ∈ scrape_fomc_events text now ns →
      (∃ y m d, ev[3]? = some (str "DTSTART;VALUE=DATE:" ++ dateKey y m d)) ∧
      ∀ l ∈ ev, dtstartQual.isPrefixOf l = false ∧ dtendQual.isPrefixOf l = false) := by
  constructor
  · intro events ev l hev hl
    unfold normalize_bls_events_to_utc at hev
    rw [List.mem_map] at hev
    obtain ⟨ev0, -, rfl⟩ := hev
    rw [List.mem_map] at hl
    obtain ⟨l0, -, rfl⟩ := hl
    by_cases hq1 : dtstartQual.isPrefixOf l0 = true
    · obtain ⟨rest, rfl⟩ := List.isPrefixOf_iff_prefix.mp hq1
      cases hr : rewriteQualified (str "DTSTART:") rest with
      | some nl =>
        have hnl : normalizeLine (dtstartQual ++ rest) = nl := by
          simp [normalizeLine, hq1, List.drop_left, hr]
        obtain ⟨u, rfl⟩ := rewriteQualified_shape hr
        rw [hnl]
        constructor
        · intro hfalse
          rw [(quals_not_prefix_rewritten_start (fmtTS u)).1] at hfalse
          cases hfalse
        · intro hfalse
          rw [(quals_not_prefix_rewritten_start (fmtTS u)).2] at hfalse
          cases hfalse
      | none =>
        have hnl : normalizeLine (dtstartQual ++ rest) = dtstartQual ++ rest := by
          simp [normalizeLine, hq1, List.drop_left, hr]
        rw [hnl]
        constructor
        · intro _
          rw [List.drop_left]
          exact hr
        · intro hfalse
          rw [dtendQual_not_prefix_dtstart rest] at hfalse
          cases hfalse
    · by_cases hq2 : dtendQual.isPrefixOf l0 = true
      · obtain ⟨rest, rfl⟩ := List.isPrefixOf_iff_prefix.mp hq2
        cases hr : rewriteQualified (str "DTEND:") rest with
        | some nl =>
          have hnl : normalizeLine (dtendQual ++ rest) = nl := by
            simp [normalizeLine, hq1, hq2, List.drop_left, hr]
          obtain ⟨u, rfl⟩ := rewriteQualified_shape hr
          rw [hnl]
          constructor
          · intro hfalse
            rw [(quals_not_prefix_rewritten_end (fmtTS u)).1] at hfalse
            cases hfalse
          · intro hfalse
            rw [(quals_not_prefix_rewritten_end (fmtTS u)).2] at hfalse
            cases hfalse
        | none =>
          have hnl : normalizeLine (dtendQual ++ rest) = dtendQual ++ rest := by
            simp [normalizeLine, hq1, hq2, List.drop_left, hr]
          rw [hnl]
          constructor
          · intro hfalse
            rw [dtstartQual_not_prefix_dtend rest] at hfalse
            cases hfalse
          · intro _
            rw [List.drop_left]
            exact hr
      · have hnl : normalizeLine l0 = l0 := by
          simp [normalizeLine, hq1, hq2]
        rw [hnl]
        simp only [Bool.not_eq_true] at hq1 hq2
        constructor
        · intro hfalse
          rw [hq1] at hfalse
          cases hfalse
        · intro hfalse
          rw [hq2] at hfalse
          cases hfalse
  · intro text now ns ev hev
    obtain ⟨y, -, sec, -, m, -, rfl⟩ := scrape_shape text now ns ev hev
    refine ⟨⟨y, m.1, m.2.2, by simp [synthEvent]⟩, ?_⟩
    intro l hl
    simp only [synthEvent, List.mem_cons, List.mem_singleton, List.not_mem_nil,
      or_false] at hl
    rcases hl with rfl | rfl | rfl | rfl | rfl | rfl | rfl
    · exact ⟨by decide, by decide⟩
    · rw [List.append_assoc]
      exact ⟨not_prefixOf_append (by decide) _, not_prefixOf_append (by decide) _⟩
    · exact ⟨not_prefixOf_append (by decide) _, not_prefixOf_append (by decide) _⟩
    · exact ⟨not_prefixOf_append (by decide) _, not_prefixOf_append (by decide) _⟩
    · exact ⟨by decide, by decide⟩
    · simp only [List.append_assoc]
      exact ⟨not_prefixOf_append (by decide) _, not_prefixOf_append (by decide) _⟩
    · exact ⟨by decide, by decide⟩

/-- Counterexample to C2 as stated: a BEA event whose parseable timestamped
start carries the `TZID=US-Eastern` qualifier is emitted into the final
output with the qualifier intact, because `main` normalizes only the BLS
events. -/
theorem claim_C2_counterexample :
    mainResult (.ok []) (.ok exBeaLines) (.ok []) exNow exNow2 =
      .ok (calHeader ++
        ([str "BEGIN:VEVENT", commentAnnot (str "BEA"),
          str "DTSTART;TZID=US-Eastern:20270109T083000",
          str "SUMMARY:Consumer Price Index", str "END:VEVENT"]) ++ calFooter) ∧
    dtstartQual.isPrefixOf (str "DTSTART;TZID=US-Eastern:20270109T083000") = true ∧
    (parseNaive (stripWS (str "20270109T083000"))).isSome = true :=
  ⟨by rfl, by decide, by decide⟩

/-- Witness for C2 (amended): a BLS line that keeps its qualifier is one
whose value fails to parse. -/
theorem claim_C2_amended_witness :
    [str "DTSTART;TZID=US-Eastern:garbage"] ∈
      normalize_bls_events_to_utc [[str "DTSTART;TZID=US-Eastern:garbage"]] ∧
    rewriteQualified (str "DTSTART:")
      ((str "DTSTART;TZID=US-Eastern:garbage").drop dtstartQual.length) = none ∧
    ((dtstartQual.isPrefixOf (str "DTSTART;TZID=US-Eastern:garbage") = true →
        rewriteQualified (str "DTSTART:")
          ((str "DTSTART;TZID=US-Eastern:garbage").drop dtstartQual.length) = none) ∧
     (dtendQual.isPrefixOf (str "DTSTART;TZID=US-Eastern:garbage") = true →
        rewriteQualified (str "DTEND:")
          ((str "DTSTART;TZID=US-Eastern:garbage").drop dtendQual.length) = none)) :=
  ⟨by decide, by decide,
   claim_C2_amended.1 [[str "DTSTART;TZID=US-Eastern:garbage"]]
     [str "DTSTART;TZID=US-Eastern:garbage"] (str "DTSTART;TZID=US-Eastern:garbage")
     (by decide) (by decide)⟩
